import Mathlib

/-
Verification of the DigiKey DataMatrix scanner core (Code_Scanner.py).

The development shallowly embeds the payload parser
(`parse_digikey_payload` and its helpers), the acceptance predicate
(`_is_complete_payload`), the decode-worker per-item loop
(`_decode_worker`), the progressive candidate generator
(`generate_candidates`) and the effort-escalation schedule
(`_effort_schedule` plus the escalation step of `scan_loop`).

Byte strings are modelled as `List Nat` (each entry a byte value below
256); Python `dict`s as insertion-ordered association lists whose update
keeps the position of an existing key, exactly like CPython dicts; image
pixel transforms (OpenCV calls) as abstract functions bundled in `ImgOps`,
since no claim depends on pixel contents; wall-clock time as abstract
boolean events ("has the budget/interval elapsed").
-/

namespace CodeScanner

/-- Byte strings: lists of naturals (each below 256 for real inputs). -/
abbrev Bytes := List Nat

/-- Group Separator byte (0x1D). -/
def GS : Nat := 0x1D

/-- Record Separator byte (0x1E). -/
def RS : Nat := 0x1E

/-- End of Transmission byte (0x04). -/
def EOT : Nat := 0x04

/-- ASCII bytes of a Lean string literal (used for the DI table and
envelope constants, which are all ASCII in the source). -/
def strBytes (s : String) : Bytes := s.data.map Char.toNat

/-- `p` is an initial segment of `l` (Python `bytes.startswith`). -/
def startsWith : Bytes → Bytes → Bool
  | [], _ => true
  | _ :: _, [] => false
  | a :: as, b :: bs => a == b && startsWith as bs

/-- Fuel-driven core of `bytesReplace`; the fuel equals the input length
on the initial call and can never run out, it only makes the recursion
structural so that the kernel can evaluate it. -/
def bytesReplaceAux (pat rep : Bytes) : Nat → Bytes → Bytes
  | _, [] => []
  | 0, l => l
  | fuel + 1, b :: rest =>
      if pat ≠ [] && startsWith pat (b :: rest) then
        rep ++ bytesReplaceAux pat rep fuel ((b :: rest).drop pat.length)
      else
        b :: bytesReplaceAux pat rep fuel rest

/-- Python `bytes.replace`: left-to-right, non-overlapping replacement of
every occurrence of `pat` by `rep`. -/
def bytesReplace (pat rep l : Bytes) : Bytes := bytesReplaceAux pat rep l.length l

/-- ASCII hex digit test on a byte, as in `_unescape_textual_hex`. -/
def isHexDigitByte (b : Nat) : Bool :=
  (48 ≤ b && b ≤ 57) || (65 ≤ b && b ≤ 70) || (97 ≤ b && b ≤ 102)

/-- Value of an ASCII hex digit byte. -/
def hexVal (b : Nat) : Nat :=
  if b ≤ 57 then b - 48 else if b ≤ 70 then b - 55 else b - 87

/-- `_unescape_textual_hex`: turn a textual four-byte sequence
`\xHH` into the single byte 0xHH; other bytes pass through. -/
def unescapeTextualHex : Bytes → Bytes
  | 92 :: x :: h1 :: h2 :: rest =>
      if (x == 120 || x == 88) && isHexDigitByte h1 && isHexDigitByte h2 then
        (hexVal h1 * 16 + hexVal h2) :: unescapeTextualHex rest
      else
        92 :: unescapeTextualHex (x :: h1 :: h2 :: rest)
  | b :: rest => b :: unescapeTextualHex rest
  | [] => []

/-- ASCII whitespace for Python `bytes.strip()`. -/
def isAsciiWsByte (b : Nat) : Bool :=
  b == 9 || b == 10 || b == 11 || b == 12 || b == 13 || b == 32

/-- Python `bytes.strip()`: drop ASCII whitespace from both ends. -/
def bytesStrip (l : Bytes) : Bytes :=
  ((l.dropWhile isAsciiWsByte).reverse.dropWhile isAsciiWsByte).reverse

/-- `_normalize_controls`: replace the textual placeholders
`<GS>`, `<RS>`, `<EOT>` by their control bytes, unescape textual
hex escapes, and strip surrounding whitespace. -/
def normalizeControls (b : Bytes) : Bytes :=
  bytesStrip (unescapeTextualHex
    (bytesReplace (strBytes "<EOT>") [EOT]
      (bytesReplace (strBytes "<RS>") [RS]
        (bytesReplace (strBytes "<GS>") [GS] b))))

/-- The 7-byte ISO/IEC 15434 Format 06 envelope header. -/
def envelopeHeader : Bytes := strBytes "[)>" ++ [RS] ++ strBytes "06" ++ [GS]

/-- `ENVELOPE_RE.match` on a whitespace-stripped byte string: the input
matches exactly when it starts with the 7-byte header and ends with the
two bytes RS EOT; the greedy DOTALL body group is everything in between.
(After `_normalize_controls` the input cannot end in a newline, so the
regex anchor behaves as end-of-string.) -/
def envelopeBody? (b : Bytes) : Option Bytes :=
  let rest := b.drop envelopeHeader.length
  if startsWith envelopeHeader b && decide (2 ≤ rest.length) &&
      rest.drop (rest.length - 2) == [RS, EOT] then
    some (rest.take (rest.length - 2))
  else
    none

/-- Python `b.rstrip(bytes([RS, EOT]))`: drop trailing RS/EOT bytes. -/
def rstripRsEot (l : Bytes) : Bytes :=
  (l.reverse.dropWhile (fun b => b == RS || b == EOT)).reverse

/-- `_bytes_clean`: re-normalize, trim trailing RS/EOT, and peel a leading
envelope header if present. -/
def bytesClean (b : Bytes) : Bytes :=
  let b1 := normalizeControls b
  let b2 := rstripRsEot b1
  if startsWith envelopeHeader b2 then b2.drop envelopeHeader.length else b2

/-- Split a byte string on a one-byte separator (Python
`body.split(bytes([GS]))`), keeping empty pieces. -/
def splitOnByte (sep : Nat) : Bytes → List Bytes
  | [] => [[]]
  | b :: rest =>
      match splitOnByte sep rest with
      | [] => if b == sep then [[], []] else [[b]]
      | x :: xs => if b == sep then [] :: x :: xs else (b :: x) :: xs

/-- Latin-1 decoding of bytes (total for every byte value; Python
`decode("latin-1", ...)` never fails on bytes). -/
def decodeLatin1 (l : Bytes) : String := ⟨l.map Char.ofNat⟩

/-- `_visible`: latin-1 decode with the three control characters rendered
as their textual placeholders. -/
def visible (l : Bytes) : String :=
  String.join ((l.map Char.ofNat).map fun c =>
    if c.toNat = GS then "<GS>"
    else if c.toNat = RS then "<RS>"
    else if c.toNat = EOT then "<EOT>"
    else String.mk [c])

/-- Python `str` whitespace restricted to code points below 256
(this includes the FS/GS/RS/US control characters 28-31, NEL 0x85 and
NBSP 0xA0, which `str.strip()` removes but `bytes.strip()` does not). -/
def pyStrWs (c : Char) : Bool :=
  decide (c.toNat = 9 ∨ c.toNat = 10 ∨ c.toNat = 11 ∨ c.toNat = 12 ∨
    c.toNat = 13 ∨ c.toNat = 28 ∨ c.toNat = 29 ∨ c.toNat = 30 ∨
    c.toNat = 31 ∨ c.toNat = 32 ∨ c.toNat = 133 ∨ c.toNat = 160)

/-- Python `str.strip()` on latin-1 strings. -/
def strStrip (s : String) : String :=
  ⟨((s.data.dropWhile pyStrWs).reverse.dropWhile pyStrWs).reverse⟩

/-- Python `str.isdigit()` restricted to code points below 256: the ASCII
digits plus the superscripts one, two, three (0xB9, 0xB2, 0xB3). -/
def pyDigitChar (c : Char) : Bool :=
  decide ((48 ≤ c.toNat ∧ c.toNat ≤ 57) ∨ c.toNat = 178 ∨ c.toNat = 179 ∨
    c.toNat = 185)

/-- Python `str.isdigit()`: nonempty and all digit characters. -/
def pyIsdigit (s : String) : Bool := !s.data.isEmpty && s.data.all pyDigitChar

/-- Numeric value of a list of ASCII digit characters, if all are digits. -/
def digitsVal? (ds : List Char) : Option Nat :=
  if !ds.isEmpty && ds.all (fun c => decide (48 ≤ c.toNat ∧ c.toNat ≤ 57)) then
    some (ds.foldl (fun acc c => acc * 10 + (c.toNat - 48)) 0)
  else
    none

/-- Python `int()` on an already-stripped string: an optional sign
followed by ASCII digits (the source only ever feeds it stripped label
field values). -/
def pyInt? (s : String) : Option Int :=
  match s.data with
  | '+' :: ds => (digitsVal? ds).map Int.ofNat
  | '-' :: ds => (digitsVal? ds).map fun n => -(n : Int)
  | ds => (digitsVal? ds).map Int.ofNat

/-- `DI_ORDER`: the known Digi-Key Data Identifiers, in the source's
priority order (longest first). -/
def DI_ORDER : List String :=
  ["30P", "12Z", "11Z", "11K", "10K", "10D",
   "1K", "1P", "1T", "9D", "4L", "Q", "K", "P", "E", "13Z", "20Z"]

/-- `DI_TO_FIELD`: DI to friendly field name, in the source dict's
insertion order. -/
def DI_TO_FIELD : List (String × String) :=
  [("P", "customer_reference"),
   ("1P", "mfr_part_number"),
   ("30P", "digikey_part_number"),
   ("K", "purchase_order"),
   ("1K", "sales_order"),
   ("10K", "invoice_number"),
   ("9D", "date_code"),
   ("10D", "date_code"),
   ("1T", "lot_code"),
   ("11K", "packing_list_number"),
   ("4L", "country_of_origin"),
   ("Q", "quantity"),
   ("11Z", "label_type"),
   ("12Z", "internal_part_id"),
   ("13Z", "internal_unused"),
   ("20Z", "padding"),
   ("E", "compliance")]

/-- `LEGACY_ALIASES`. -/
def LEGACY_ALIASES : List (String × String) :=
  [("manufacturer_part_number", "mfr_part_number")]

/-- `REQUIRED_DIs`: the set used for the `missing_required` diagnostic. -/
def REQUIRED_DIs : List String := ["30P", "Q"]

/-- `REQUIRED_ACCEPT_DIs`: the default required set of
`_is_complete_payload`. -/
def REQUIRED_ACCEPT_DIs : List String := ["30P", "Q", "1P"]

/-- Insertion-ordered dict lookup. -/
def dictGet? : List (String × α) → String → Option α
  | [], _ => none
  | (k', v) :: rest, k => if k' = k then some v else dictGet? rest k

/-- Insertion-ordered dict update: replace in place if the key exists,
append otherwise (CPython dict semantics). -/
def dictSet : List (String × α) → String → α → List (String × α)
  | [], k, v => [(k, v)]
  | (k', v') :: rest, k, v =>
      if k' = k then (k, v) :: rest else (k', v') :: dictSet rest k v

/-- Dict key membership. -/
def dictContains (d : List (String × α)) (k : String) : Bool :=
  (dictGet? d k).isSome

/-- Identify a token's DI: the first entry of `DI_ORDER` that is a prefix
of the token (`tok.startswith(cand.encode("ascii"))`). -/
def findDI (tok : Bytes) : Option String :=
  DI_ORDER.find? fun d => startsWith (strBytes d) tok

/-- The value carried by a token once its DI has been identified:
`tok[len(di):].decode("latin-1", errors="replace").strip()`. -/
def tokenValue (di : String) (tok : Bytes) : String :=
  strStrip (decodeLatin1 (tok.drop (strBytes di).length))

/-- One entry of `diagnostics.duplicates`. -/
structure DupEntry where
  di : String
  previous : String
  kept : String
deriving DecidableEq, Repr

/-- State of the token-processing loop of `parse_digikey_payload`. -/
structure TokState where
  by_di : List (String × String)
  unknown : List String
  dups : List DupEntry
deriving DecidableEq, Repr

/-- Processing of a single body token (lines 240-255 of the source):
unknown tokens are recorded verbatim, matched tokens update `by_di`
last-wins and log the displaced value. -/
def stepToken (st : TokState) (tok : Bytes) : TokState :=
  match findDI tok with
  | none => { st with unknown := st.unknown ++ [decodeLatin1 tok] }
  | some di =>
      let value := tokenValue di tok
      let dups' :=
        match dictGet? st.by_di di with
        | some prev => st.dups ++ [⟨di, prev, value⟩]
        | none => st.dups
      { st with by_di := dictSet st.by_di di value, dups := dups' }

/-- The token loop over a whole body. -/
def processTokens (toks : List Bytes) : TokState :=
  toks.foldl stepToken ⟨[], [], []⟩

/-- Values of the `fields` map: plain strings, the coerced integer
quantity, the `date_code_sources` sub-dict and the `_warnings` list. -/
inductive FieldVal where
  | str (s : String)
  | int (n : Int)
  | strMap (m : List (String × String))
  | strList (l : List String)
deriving DecidableEq, Repr

/-- Straight DI-to-field projection plus the date-code preference logic
(lines 257-276 of the source). -/
def projectFields (by_di : List (String × String)) : List (String × FieldVal) :=
  let f0 := DI_TO_FIELD.foldl (fun f p =>
    if p.1 = "9D" ∨ p.1 = "10D" then f
    else
      match dictGet? by_di p.1 with
      | some v => dictSet f p.2 (.str v)
      | none => f) []
  let f1 :=
    match dictGet? by_di "9D" with
    | some v => dictSet f0 "date_code" (.str (strStrip v))
    | none =>
        match dictGet? by_di "10D" with
        | some v => dictSet f0 "date_code" (.str (strStrip v))
        | none => f0
  match dictGet? by_di "9D", dictGet? by_di "10D" with
  | some v9, some v10 =>
      if v10 ≠ v9 then dictSet f1 "date_code_sources" (.strMap [("10D", v10)])
      else f1
  | _, _ => f1

/-- Best-effort integer coercion of the quantity field; failure leaves the
string untouched (the source's try/except around `int(...)`). -/
def coerceQuantity (fields : List (String × FieldVal)) : List (String × FieldVal) :=
  match dictGet? fields "quantity" with
  | some (.str v) =>
      match pyInt? (strStrip v) with
      | some n => dictSet fields "quantity" (.int n)
      | none => fields
  | _ => fields

/-- Python `str.upper()` restricted to the latin-1 alphabetic ranges
(a-z and the accented letters 0xE0-0xFE except the division sign; the
special cases sharp s, micro sign and y-with-diaeresis are left
unchanged - no claim exercises them). -/
def pyUpperChar (c : Char) : Char :=
  if 97 ≤ c.toNat ∧ c.toNat ≤ 122 then Char.ofNat (c.toNat - 32)
  else if (224 ≤ c.toNat ∧ c.toNat ≤ 254) ∧ c.toNat ≠ 247 then
    Char.ofNat (c.toNat - 32)
  else c

/-- `str.upper()` on latin-1 strings. -/
def pyUpper (s : String) : String := ⟨s.data.map pyUpperChar⟩

/-- `re.fullmatch(r"[A-Z]{2}", coo)`. -/
def cooOk (s : String) : Bool :=
  decide (s.length = 2) && s.data.all fun c => decide (65 ≤ c.toNat ∧ c.toNat ≤ 90)

/-- The `_warnings` list currently in `fields` (`setdefault` semantics). -/
def warningsOf (f : List (String × FieldVal)) : List String :=
  match dictGet? f "_warnings" with
  | some (.strList l) => l
  | _ => []

/-- Country-of-origin normalization (lines 285-289 of the source). -/
def normalizeCoo (fields : List (String × FieldVal)) : List (String × FieldVal) :=
  match dictGet? fields "country_of_origin" with
  | some (.str v) =>
      let coo := pyUpper (strStrip v)
      let f2 := dictSet fields "country_of_origin" (.str coo)
      if cooOk coo then f2
      else
        dictSet f2 "_warnings"
          (.strList (warningsOf f2 ++ ["country_of_origin not 2-letter code"]))
  | _ => fields

/-- The field normalizations: quantity coercion then country code. -/
def normalizeFields (fields : List (String × FieldVal)) : List (String × FieldVal) :=
  normalizeCoo (coerceQuantity fields)

/-- Legacy alias insertion (lines 292-294 of the source). -/
def addLegacy (fields : List (String × FieldVal)) : List (String × FieldVal) :=
  LEGACY_ALIASES.foldl (fun f p =>
    if dictContains f p.2 && !dictContains f p.1 then
      match dictGet? f p.2 with
      | some v => dictSet f p.1 v
      | none => f
    else f) fields

/-- Digits-only fallback (lines 296-303): when no DI matched and the
decoded stripped body is all digits of length 6..14, set
`internal_part_id` and flag the inference; returns the final fields and
the optional inference tag. -/
def applyFallback (by_di : List (String × String))
    (fields : List (String × FieldVal)) (bodyStr : String) :
    List (String × FieldVal) × Option String :=
  if by_di.isEmpty && pyIsdigit bodyStr && decide (6 ≤ bodyStr.length) &&
      decide (bodyStr.length ≤ 14) then
    (dictSet fields "internal_part_id" (.str bodyStr), some "digits_only_internal_id")
  else
    (fields, none)

/-- The `diagnostics` sub-dict: each key present only when nonempty. -/
structure Diagnostics where
  unknown_groups : Option (List String)
  duplicates : Option (List DupEntry)
  missing_required : Option (List String)
deriving DecidableEq, Repr

/-- Build `result["diagnostics"]`: absent when all three lists are empty,
and inside it each key is present only when its list is nonempty. -/
def mkDiagnostics (unknown : List String) (dups : List DupEntry)
    (missing : List String) : Option Diagnostics :=
  if unknown.isEmpty && dups.isEmpty && missing.isEmpty then none
  else
    some
      { unknown_groups := if unknown.isEmpty then none else some unknown
        duplicates := if dups.isEmpty then none else some dups
        missing_required := if missing.isEmpty then none else some missing }

/-- The body bytes the parser tokenizes: the envelope's captured group
when the envelope matches, otherwise the best-effort `_bytes_clean` of
the normalized input. -/
def bodyOf (raw : Bytes) : Bytes :=
  match envelopeBody? (normalizeControls raw) with
  | some b => b
  | none => bytesClean (normalizeControls raw)

/-- `tokens = [t for t in body.split(bytes([GS])) if t]`. -/
def tokenize (body : Bytes) : List Bytes :=
  (splitOnByte GS body).filter fun t => !t.isEmpty

/-- The structured result of `parse_digikey_payload`. -/
structure ParsedPayload where
  standard : String
  envelope_valid : Bool
  fields : List (String × FieldVal)
  by_di : List (String × String)
  inference : Option String
  diagnostics : Option Diagnostics
  raw_bytes : Bytes
  raw_visible : String
  payload_visible : String
deriving DecidableEq, Repr

/-- `parse_digikey_payload` (lines 215-335 of the source). -/
def parseDigikeyPayload (raw : Bytes) : ParsedPayload :=
  let body := bodyOf raw
  let st := processTokens (tokenize body)
  let bodyStr := strStrip (decodeLatin1 body)
  let fields1 := addLegacy (normalizeFields (projectFields st.by_di))
  let fr := applyFallback st.by_di fields1 bodyStr
  let missing := REQUIRED_DIs.filter fun di => !dictContains st.by_di di
  { standard := "ISO/IEC 15434 (MH10.8.2) Format 06"
    envelope_valid := (envelopeBody? (normalizeControls raw)).isSome
    fields := fr.1
    by_di := st.by_di
    inference := fr.2
    diagnostics := mkDiagnostics st.unknown st.dups missing
    raw_bytes := raw
    raw_visible := visible raw
    payload_visible := visible body }

/-- `_is_complete_payload` (lines 184-193 of the source). -/
def isCompletePayload (required : List String) (p : ParsedPayload) : Bool :=
  if p.by_di.isEmpty && dictContains p.fields "internal_part_id" then false
  else if p.inference == some "digits_only_internal_id" then false
  else required.all fun di => dictContains p.by_di di

/-- A decoded symbol's rectangle. -/
structure Rect where
  left : Int
  top : Int
  width : Int
  height : Int
deriving DecidableEq, Repr

/-- A raw symbol returned by the decode backend: the payload bytes and an
optional rectangle (the worker reads rect attributes with default 0). -/
structure Symbol where
  raw : Bytes
  rect : Option Rect
deriving DecidableEq, Repr

/-- `getattr(getattr(d, "rect", None), "left", 0)` and friends. -/
def rectLeft (s : Symbol) : Int := (s.rect.map Rect.left).getD 0

def rectTop (s : Symbol) : Int := (s.rect.map Rect.top).getD 0

def rectWidth (s : Symbol) : Int := (s.rect.map Rect.width).getD 0

def rectHeight (s : Symbol) : Int := (s.rect.map Rect.height).getD 0

/-- The inner symbol loop of `_decode_worker` (lines 539-557): skip
symbols with empty payloads, parse each remaining one, and accept the
first whose parse passes `_is_complete_payload`, translating its local
rectangle by the work item's ROI offset. -/
def acceptSymbol? (ox oy : Int) : List Symbol → Option (Bytes × Rect)
  | [] => none
  | d :: rest =>
      if d.raw.isEmpty then acceptSymbol? ox oy rest
      else if isCompletePayload REQUIRED_ACCEPT_DIs (parseDigikeyPayload d.raw) then
        some (d.raw, ⟨rectLeft d + ox, rectTop d + oy, rectWidth d, rectHeight d⟩)
      else acceptSymbol? ox oy rest

/-- The candidate loop of `_decode_worker` for one work item
(lines 532-563).  Each list element is the backend's outcome for one
candidate image, in generation order: either an exception or a list of
symbols.  `budgetHit i` abstracts the wall-clock test
`(time.time() - start) * 1000 > decode_budget_ms` made after candidate
`i`.  Faithful to the source: an accepted symbol overwrites `got` without
breaking out of the candidate loop (the budget check is gated on
`got is None`), and a backend exception is not caught and so propagates
out of the loop. -/
def processItemGo (ox oy : Int) (budgetHit : Nat → Bool) :
    List (Except String (List Symbol)) → Option (Bytes × Rect) → Nat →
    Except String (Option (Bytes × Rect))
  | [], got, _ => .ok got
  | c :: rest, got, i =>
      match c with
      | .error e => .error e
      | .ok res =>
          let got' :=
            match acceptSymbol? ox oy res with
            | some g => some g
            | none => got
          if got'.isNone && budgetHit i then .ok got'
          else processItemGo ox oy budgetHit rest got' (i + 1)

/-- `_decode_worker`'s processing of one `WorkItem`: the value it pushes
to the outbound channel, or the uncaught backend exception. -/
def processItem (ox oy : Int) (budgetHit : Nat → Bool)
    (cands : List (Except String (List Symbol))) :
    Except String (Option (Bytes × Rect)) :=
  processItemGo ox oy budgetHit cands none 0

/-- The image transforms used by `generate_candidates`, abstract since no
claim depends on pixel contents. -/
structure ImgOps (α : Type) where
  fastContrast : α → α
  clahe : α → α
  unsharp : α → α
  invert : α → α
  upscale : α → α
  rot90cw : α → α
  rot180 : α → α
  rot90ccw : α → α

/-- `rotations`: the image and its three quarter-turns, tagged. -/
def rotations (ops : ImgOps α) (img : α) : List (α × String) :=
  [(img, "r0"), (ops.rot90cw img, "r90"), (ops.rot180 img, "r180"),
   (ops.rot90ccw img, "r270")]

/-- State of the `_yield` closure of `generate_candidates`: the images
yielded so far and the shared counter. -/
structure GenState (α : Type) where
  out : List (α × String)
  count : Nat

/-- `_yield(img, tag)`: emit only while the counter is below the cap. -/
def tryYield (maxC : Nat) (st : GenState α) (img : α) (tag : String) :
    GenState α :=
  if st.count < maxC then ⟨st.out ++ [(img, tag)], st.count + 1⟩ else st

/-- A yield attempt guarded by a level test (`if level >= n:` blocks). -/
def guardYield (cond : Bool) (maxC : Nat) (img : α) (tag : String)
    (st : GenState α) : GenState α :=
  if cond then tryYield maxC st img tag else st

/-- Levels 0 through 4 of `generate_candidates`, in the source's yield
order: gray; fast contrast; CLAHE and unsharp; the two inversions; the
1.5x upscale. -/
def genBase (ops : ImgOps α) (gray : α) (level maxC : Nat) : GenState α :=
  guardYield (decide (4 ≤ level)) maxC (ops.upscale gray) "up1.5"
    (guardYield (decide (3 ≤ level)) maxC (ops.invert (ops.fastContrast gray)) "fastc+inv"
      (guardYield (decide (3 ≤ level)) maxC (ops.invert gray) "gray+inv"
        (guardYield (decide (2 ≤ level)) maxC (ops.unsharp gray) "sharp"
          (guardYield (decide (2 ≤ level)) maxC (ops.clahe gray) "clahe"
            (guardYield (decide (1 ≤ level)) maxC (ops.fastContrast gray) "fastc"
              (tryYield maxC ⟨[], 0⟩ gray "gray"))))))

/-- `generate_candidates` (lines 398-438): the full candidate list for a
level and cap.  Level 5 re-runs the generator at level 0 with a fresh
counter (exactly as `list(generate_candidates(gray, 0, max_candidates))`
does) and pushes the four rotations of each of those images through the
outer counter. -/
def generateCandidates (ops : ImgOps α) (gray : α) (level maxC : Nat) :
    List (α × String) :=
  (if _h : 5 ≤ level then
      (generateCandidates ops gray 0 maxC).foldl
        (fun st p =>
          (rotations ops p.1).foldl
            (fun st2 q => tryYield maxC st2 q.1 (p.2 ++ ":" ++ q.2)) st)
        (genBase ops gray level maxC)
    else genBase ops gray level maxC).out
termination_by level
decreasing_by omega

/-- `_effort_schedule` (lines 655-662): mode to
(start level, escalation interval in seconds, max level).  The float
literals 2.5, 1.8 and 1.0 are modelled as exact rationals. -/
def effortSchedule (mode : String) : Nat × ℚ × Nat :=
  if mode = "fast" then (0, 5 / 2, 3)
  else if mode = "aggressive" then (1, 1, 5)
  else (0, 9 / 5, 5)

/-- One pass of the escalation check in `scan_loop` (lines 809-812):
`found` abstracts `found_data is not None`, `intervalElapsed` abstracts
`time.time() - last_escalate_t > escalate_sec`. -/
def escalateStep (maxLevel lv : Nat) (found intervalElapsed : Bool) : Nat :=
  if !found && intervalElapsed then
    if lv < maxLevel then lv + 1 else lv
  else lv

/-- The effort level reached after a sequence of frame iterations, each
contributing its (found, intervalElapsed) pair, starting from the mode's
floor. -/
def runEffort (mode : String) (evts : List (Bool × Bool)) : Nat :=
  evts.foldl
    (fun lv e => escalateStep (effortSchedule mode).2.2 lv e.1 e.2)
    (effortSchedule mode).1

/-- The values of a given DI across a token list, in token order (a
specification-side recomputation used to state the last-wins policy). -/
def diValues (toks : List Bytes) (di : String) : List String :=
  toks.filterMap fun t =>
    match findDI t with
    | some d => if d = di then some (tokenValue d t) else none
    | none => none

/-- Last element of a list of strings, if any. -/
def lastOf : List String → Option String
  | [] => none
  | [a] => some a
  | _ :: b :: rest => lastOf (b :: rest)

/-- First-of-two preference on options. -/
def orElseO : Option α → Option α → Option α
  | some x, _ => some x
  | none, b => b

/-- Adjacent pairs of a list: `[a, b, c]` gives `[(a, b), (b, c)]`. -/
def adjacentPairs : List String → List (String × String)
  | a :: b :: rest => (a, b) :: adjacentPairs (b :: rest)
  | _ => []

/-- Adjacent pairs seeded by a previous value carried in from earlier
processing. -/
def adjFrom : Option String → List String → List (String × String)
  | _, [] => []
  | none, v :: vs => adjFrom (some v) vs
  | some p, v :: vs => (p, v) :: adjFrom (some v) vs

/-- The duplicate entries for one DI, projected to (previous, kept). -/
def dupProj (dups : List DupEntry) (di : String) : List (String × String) :=
  (dups.filter fun e => e.di == di).map fun e => (e.previous, e.kept)

/-- The duplicates list of a parse result (empty when the diagnostics or
the key are absent). -/
def dupsOf (p : ParsedPayload) : List DupEntry :=
  match p.diagnostics with
  | some d => d.duplicates.getD []
  | none => []

/-- The invariant of the `_yield` counter: the emitted list has exactly
`count` elements and the counter never exceeds the cap. -/
def GoodGen (maxC : Nat) (st : GenState α) : Prop :=
  st.out.length = st.count ∧ st.count ≤ maxC

/-- Concrete test fixtures for the decode-worker theorems: two symbols
whose payloads both parse complete but differ. -/
def symA : Symbol :=
  ⟨strBytes "30P1" ++ [GS] ++ strBytes "Q2" ++ [GS] ++ strBytes "1PX",
   some ⟨10, 20, 5, 6⟩⟩

def symB : Symbol :=
  ⟨strBytes "30P9" ++ [GS] ++ strBytes "Q8" ++ [GS] ++ strBytes "1PY",
   some ⟨1, 2, 3, 4⟩⟩

/-- Fixture for the duplicate-DI claim: lot code `1T` twice. -/
def lotBytes : Bytes := strBytes "1TLOT1" ++ [GS] ++ strBytes "1TLOT2"

/-- Fixture for the required-set claim: DK part number and quantity only. -/
def c10bytes : Bytes := strBytes "30P123" ++ [GS] ++ strBytes "Q5"

/- ------------------------------------------------------------------ -/
/- Support lemmas                                                      -/
/- ------------------------------------------------------------------ -/

theorem startsWith_iff : ∀ p l : Bytes, startsWith p l = true ↔ p <+: l
  | [], l => by simp [startsWith]
  | a :: as, [] => by simp [startsWith]
  | a :: as, b :: bs => by
      simp [startsWith, startsWith_iff as bs, List.cons_prefix_cons]

theorem prefixTotal {l1 l2 l3 : Bytes} (h1 : l1 <+: l3) (h2 : l2 <+: l3) :
    l1 <+: l2 ∨ l2 <+: l1 := by
  have key : ∀ m n : Nat, m ≤ n → l3.take m <+: l3.take n := by
    intro m n hmn
    have ht : (l3.take n).take m = l3.take m := by
      rw [List.take_take, Nat.min_eq_left hmn]
    rw [← ht]
    exact List.take_prefix m (l3.take n)
  rcases Nat.le_total l1.length l2.length with h | h
  · left
    have e1 := List.prefix_iff_eq_take.mp h1
    have e2 := List.prefix_iff_eq_take.mp h2
    rw [e1, e2]
    exact key _ _ h
  · right
    have e1 := List.prefix_iff_eq_take.mp h1
    have e2 := List.prefix_iff_eq_take.mp h2
    rw [e1, e2]
    exact key _ _ h

/-- No entry of the DI table is a proper prefix of another entry: the
first match in `DI_ORDER` is therefore always the unique, hence longest,
matching DI. -/
theorem diOrderNoShadow :
    ∀ d1 ∈ DI_ORDER, ∀ d2 ∈ DI_ORDER,
      startsWith (strBytes d1) (strBytes d2) = true → d1 = d2 := by decide

theorem dictGet?_set_self (d : List (String × α)) (k : String) (v : α) :
    dictGet? (dictSet d k v) k = some v := by
  induction d with
  | nil => simp [dictSet, dictGet?]
  | cons p rest ih =>
      obtain ⟨k', v'⟩ := p
      by_cases h : k' = k
      · subst h; simp [dictSet, dictGet?]
      · simp [dictSet, dictGet?, h, ih]

theorem dictGet?_set_ne (d : List (String × α)) {k k' : String} (v : α)
    (h : k ≠ k') : dictGet? (dictSet d k v) k' = dictGet? d k' := by
  induction d with
  | nil => simp [dictSet, dictGet?, h]
  | cons p rest ih =>
      obtain ⟨k0, v0⟩ := p
      by_cases h0 : k0 = k
      · subst h0
        simp [dictSet, dictGet?, h]
      · simp [dictSet, dictGet?, h0, ih]

theorem orElseO_none_right (x : Option α) : orElseO x none = x := by
  cases x <;> rfl

theorem lastOf_cons : ∀ (vs : List String) (v : String),
    lastOf (v :: vs) = orElseO (lastOf vs) (some v)
  | [], _ => rfl
  | b :: rest, v => by
      have h : lastOf (v :: b :: rest) = lastOf (b :: rest) := rfl
      rw [h, lastOf_cons rest b]
      cases lastOf rest <;> rfl

theorem adjFrom_some_eq : ∀ (l : List String) (p : String),
    adjFrom (some p) l = adjacentPairs (p :: l)
  | [], _ => rfl
  | v :: vs, p => by
      show (p, v) :: adjFrom (some v) vs = adjacentPairs (p :: v :: vs)
      rw [adjFrom_some_eq vs v]
      rfl

theorem adjFrom_none_eq (l : List String) : adjFrom none l = adjacentPairs l := by
  cases l with
  | nil => rfl
  | cons v vs =>
      show adjFrom (some v) vs = adjacentPairs (v :: vs)
      exact adjFrom_some_eq vs v

/-- Last-wins invariant of the token-processing fold, generalized over
the running state. -/
theorem foldl_by_di (di : String) : ∀ (toks : List Bytes) (st : TokState),
    dictGet? (toks.foldl stepToken st).by_di di =
      orElseO (lastOf (diValues toks di)) (dictGet? st.by_di di)
  | [], st => by simp [diValues, lastOf, orElseO]
  | t :: ts, st => by
      rw [List.foldl_cons, foldl_by_di di ts (stepToken st t)]
      rcases hf : findDI t with _ | d
      · simp [stepToken, hf, diValues, List.filterMap_cons]
      · by_cases hd : d = di
        · subst hd
          have hby : (stepToken st t).by_di = dictSet st.by_di d (tokenValue d t) := by
            simp [stepToken, hf]
          rw [hby, dictGet?_set_self]
          have hv : diValues (t :: ts) d = tokenValue d t :: diValues ts d := by
            simp [diValues, List.filterMap_cons, hf]
          rw [hv, lastOf_cons]
          cases lastOf (diValues ts d) <;> rfl
        · have hby : (stepToken st t).by_di = dictSet st.by_di d (tokenValue d t) := by
            simp [stepToken, hf]
          have hne : d ≠ di := hd
          rw [hby, dictGet?_set_ne _ _ hne]
          have hv : diValues (t :: ts) di = diValues ts di := by
            simp [diValues, List.filterMap_cons, hf, hd]
          rw [hv]

/-- Every displaced value is recorded: the per-DI duplicate records of the
fold are exactly the adjacent pairs of that DI's value sequence, seeded by
whatever binding the running state already holds. -/
theorem foldl_dups (di : String) : ∀ (toks : List Bytes) (st : TokState),
    dupProj (toks.foldl stepToken st).dups di =
      dupProj st.dups di ++ adjFrom (dictGet? st.by_di di) (diValues toks di)
  | [], st => by simp [diValues, adjFrom]
  | t :: ts, st => by
      rw [List.foldl_cons, foldl_dups di ts (stepToken st t)]
      rcases hf : findDI t with _ | d
      · have h1 : (stepToken st t).dups = st.dups := by simp [stepToken, hf]
        have h2 : (stepToken st t).by_di = st.by_di := by simp [stepToken, hf]
        have h3 : diValues (t :: ts) di = diValues ts di := by
          simp [diValues, List.filterMap_cons, hf]
        rw [h1, h2, h3]
      · by_cases hd : d = di
        · subst hd
          have hby : (stepToken st t).by_di = dictSet st.by_di d (tokenValue d t) := by
            simp [stepToken, hf]
          have hv : diValues (t :: ts) d = tokenValue d t :: diValues ts d := by
            simp [diValues, List.filterMap_cons, hf]
          rcases hp : dictGet? st.by_di d with _ | prev
          · have hdu : (stepToken st t).dups = st.dups := by
              simp [stepToken, hf, hp]
            rw [hdu, hby, dictGet?_set_self, hv]
            rfl
          · have hdu : (stepToken st t).dups =
                st.dups ++ [⟨d, prev, tokenValue d t⟩] := by
              simp [stepToken, hf, hp]
            rw [hdu, hby, dictGet?_set_self, hv]
            have hproj : dupProj (st.dups ++ [⟨d, prev, tokenValue d t⟩]) d =
                dupProj st.dups d ++ [(prev, tokenValue d t)] := by
              simp [dupProj, List.filter_append, List.map_append]
            rw [hproj, List.append_assoc]
            rfl
        · have hby : (stepToken st t).by_di = dictSet st.by_di d (tokenValue d t) := by
            simp [stepToken, hf]
          have hne : d ≠ di := hd
          have hv : diValues (t :: ts) di = diValues ts di := by
            simp [diValues, List.filterMap_cons, hf, hd]
          rcases hp : dictGet? st.by_di d with _ | prev
          · have hdu : (stepToken st t).dups = st.dups := by
              simp [stepToken, hf, hp]
            rw [hdu, hby, dictGet?_set_ne _ _ hne, hv]
          · have hdu : (stepToken st t).dups =
                st.dups ++ [⟨d, prev, tokenValue d t⟩] := by
              simp [stepToken, hf, hp]
            have hproj : dupProj (st.dups ++ [⟨d, prev, tokenValue d t⟩]) di =
                dupProj st.dups di := by
              simp [dupProj, List.filter_append, List.map_append, hne]
            rw [hdu, hby, dictGet?_set_ne _ _ hne, hv, hproj]

set_option maxRecDepth 10000 in
theorem char_toNat_ofNat_lt256 : ∀ b < 256, (Char.ofNat b).toNat = b := by decide

theorem dropWhile_eq_self_of_all {p : Char → Bool} {l : List Char}
    (h : ∀ c ∈ l, p c = false) : l.dropWhile p = l := by
  cases l with
  | nil => rfl
  | cons a rest => simp [List.dropWhile_cons, h a (by simp)]

theorem strStrip_noop {s : String} (h : ∀ c ∈ s.data, pyStrWs c = false) :
    strStrip s = s := by
  unfold strStrip
  rw [dropWhile_eq_self_of_all h,
    dropWhile_eq_self_of_all (fun c hc => h c (List.mem_reverse.mp hc)),
    List.reverse_reverse]

theorem goodGen_out_le {maxC : Nat} {st : GenState α} (h : GoodGen maxC st) :
    st.out.length ≤ maxC := by
  rw [h.1]
  exact h.2

theorem tryYield_good {maxC : Nat} {st : GenState α} (h : GoodGen maxC st)
    (img : α) (tag : String) : GoodGen maxC (tryYield maxC st img tag) := by
  obtain ⟨h1, h2⟩ := h
  unfold tryYield GoodGen
  split_ifs with hc
  · refine ⟨?_, ?_⟩
    · show (st.out ++ [(img, tag)]).length = st.count + 1
      simp [h1]
    · show st.count + 1 ≤ maxC
      omega
  · exact ⟨h1, h2⟩

theorem guardYield_good {maxC : Nat} {cond : Bool} {st : GenState α}
    (h : GoodGen maxC st) (img : α) (tag : String) :
    GoodGen maxC (guardYield cond maxC img tag st) := by
  unfold guardYield
  split_ifs with hc
  · exact tryYield_good h img tag
  · exact h

theorem foldl_good {β : Type} {maxC : Nat} (f : GenState α → β → GenState α)
    (hf : ∀ (st : GenState α) (b : β), GoodGen maxC st → GoodGen maxC (f st b)) :
    ∀ (l : List β) (st : GenState α), GoodGen maxC st → GoodGen maxC (l.foldl f st)
  | [], _, h => h
  | b :: bs, st, h => foldl_good f hf bs (f st b) (hf st b h)

theorem genBase_good (ops : ImgOps α) (gray : α) (level maxC : Nat) :
    GoodGen maxC (genBase ops gray level maxC) := by
  unfold genBase
  exact guardYield_good (guardYield_good (guardYield_good (guardYield_good
    (guardYield_good (guardYield_good
      (tryYield_good ⟨rfl, Nat.zero_le _⟩ _ _) _ _) _ _) _ _) _ _) _ _) _ _

theorem escalateStep_ge (maxL lv : Nat) (f i : Bool) :
    lv ≤ escalateStep maxL lv f i := by
  unfold escalateStep
  split_ifs <;> omega

theorem escalateStep_le (maxL lv : Nat) (f i : Bool) (h : lv ≤ maxL) :
    escalateStep maxL lv f i ≤ maxL := by
  unfold escalateStep
  split_ifs <;> omega

theorem foldl_escalate_le (maxL : Nat) :
    ∀ (evts : List (Bool × Bool)) (lv : Nat), lv ≤ maxL →
      evts.foldl (fun l e => escalateStep maxL l e.1 e.2) lv ≤ maxL
  | [], _, h => h
  | e :: es, lv, h =>
      foldl_escalate_le maxL es _ (escalateStep_le maxL lv e.1 e.2 h)

/- ------------------------------------------------------------------ -/
/- Claim theorems                                                      -/
/- ------------------------------------------------------------------ -/

/-- C1.  `_is_complete_payload` returns true if and only if every DI of
the configured (nonempty) required set - by default `REQUIRED_ACCEPT_DIs
= ["30P", "Q", "1P"]` - is a key of `by_di` and the payload is not the
digits-only fallback inference. -/
theorem isCompletePayload_spec :
    REQUIRED_ACCEPT_DIs = ["30P", "Q", "1P"] ∧
    ∀ (req : List String) (p : ParsedPayload), req ≠ [] →
      (isCompletePayload req p = true ↔
        ((∀ di ∈ req, dictContains p.by_di di = true) ∧
          p.inference ≠ some "digits_only_internal_id")) := by
  refine ⟨rfl, ?_⟩
  intro req p hreq
  unfold isCompletePayload
  split_ifs with h1 h2
  · simp only [Bool.and_eq_true] at h1
    have hbd : p.by_di = [] := List.isEmpty_iff.mp h1.1
    constructor
    · intro h; simp at h
    · rintro ⟨hall, -⟩
      cases req with
      | nil => exact absurd rfl hreq
      | cons d rest =>
          have hh := hall d (by simp)
          rw [hbd] at hh
          simp [dictContains, dictGet?] at hh
  · have hinf : p.inference = some "digits_only_internal_id" := by
      simpa using h2
    constructor
    · intro h; simp at h
    · rintro ⟨-, hne⟩
      exact absurd hinf hne
  · rw [List.all_eq_true]
    constructor
    · intro hall
      refine ⟨hall, fun hinf => h2 ?_⟩
      simp [hinf]
    · rintro ⟨hall, -⟩
      exact hall

/-- C1 witness: the default required set at a concrete parsed payload. -/
theorem isCompletePayload_spec_witness :
    (["30P", "Q", "1P"] : List String) ≠ [] ∧
    (isCompletePayload ["30P", "Q", "1P"] (parseDigikeyPayload (strBytes "12345678")) = true ↔
      ((∀ di ∈ (["30P", "Q", "1P"] : List String),
          dictContains (parseDigikeyPayload (strBytes "12345678")).by_di di = true) ∧
        (parseDigikeyPayload (strBytes "12345678")).inference ≠
          some "digits_only_internal_id")) :=
  ⟨by decide, isCompletePayload_spec.2 ["30P", "Q", "1P"] _ (by decide)⟩

/-- C2 (evaluation at the failing input).  A work item whose first
candidate decodes to the complete symbol `symA` and whose second
candidate decodes to the different complete symbol `symB` makes the
worker push `symB` - the last processed candidate's hit, with its
rectangle duly offset - even though `symA` is the first symbol, in
candidate order, that passes the completeness predicate: the loop keeps
decoding after an acceptance because the budget check is gated on
`got is None`, and each later hit overwrites `got`. -/
theorem decode_worker_keeps_last_hit :
    isCompletePayload REQUIRED_ACCEPT_DIs (parseDigikeyPayload symA.raw) = true ∧
    isCompletePayload REQUIRED_ACCEPT_DIs (parseDigikeyPayload symB.raw) = true ∧
    acceptSymbol? 7 9 [symA] = some (symA.raw, ⟨17, 29, 5, 6⟩) ∧
    processItem 7 9 (fun _ => false) [Except.ok [symA], Except.ok [symB]] =
      Except.ok (some (symB.raw, ⟨8, 11, 3, 4⟩)) ∧
    symB.raw ≠ symA.raw := by
  refine ⟨by decide, by decide, by decide, rfl, by decide⟩

/-- C3 counterexample: a backend exception on the first candidate of a
work item propagates out of the worker's per-item loop instead of being
swallowed and turned into "no symbol". -/
theorem decode_worker_error_cex :
    processItem 0 0 (fun _ => false) [Except.error "backend failure"] =
      Except.error "backend failure" := rfl

/-- C3 (amended).  The decode loop has no exception handler around the
backend call: whenever the backend raises on the first candidate of a
work item, the error propagates out of the item's processing, whatever
the ROI offset, budget clock and remaining candidates are. -/
theorem decode_worker_error_propagates (ox oy : Int) (budgetHit : Nat → Bool)
    (e : String) (rest : List (Except String (List Symbol))) :
    processItem ox oy budgetHit (Except.error e :: rest) = Except.error e := rfl

/-- C4.  `parse_digikey_payload` is total: it is defined as a total Lean
function on every byte string (each internal Python operation either
cannot raise or has its failure branch handled, like the quantity `int`
coercion), and for every input - malformed, empty, non-ASCII or
envelope-less alike - it returns a `ParsedPayload` that echoes the input
bytes and carries the fixed standard tag.  The closed conjuncts evaluate
it on an empty, a non-ASCII and a textual-escape input. -/
theorem parseDigikeyPayload_total :
    (∀ raw : Bytes, (parseDigikeyPayload raw).raw_bytes = raw ∧
        (parseDigikeyPayload raw).standard = "ISO/IEC 15434 (MH10.8.2) Format 06") ∧
    (parseDigikeyPayload []).fields = [] ∧
    (parseDigikeyPayload [200, 201]).envelope_valid = false ∧
    (parseDigikeyPayload [92, 120, 49, 68]).by_di = [] ∧
    (parseDigikeyPayload [92, 120, 49, 68]).payload_visible = "<GS>" :=
  ⟨fun _ => ⟨rfl, rfl⟩, by decide, by decide, by decide, by decide⟩

/-- C5.  The DI assigned to a token is always a longest matching DI: it
is a prefix of the token and no table DI that is a prefix of the token is
longer.  Concretely, token `30P1234` is assigned DI `30P` with value
`1234` (and the whole parse of that body yields exactly that binding). -/
theorem longest_di_match :
    (∀ (tok : Bytes) (di : String), findDI tok = some di →
        startsWith (strBytes di) tok = true ∧
        ∀ d ∈ DI_ORDER, startsWith (strBytes d) tok = true →
          (strBytes d).length ≤ (strBytes di).length) ∧
    findDI (strBytes "30P1234") = some "30P" ∧
    tokenValue "30P" (strBytes "30P1234") = "1234" ∧
    (parseDigikeyPayload (strBytes "30P1234")).by_di = [("30P", "1234")] := by
  refine ⟨?_, by decide, by decide, by decide⟩
  intro tok di hfind
  have hfind' : DI_ORDER.find? (fun d => startsWith (strBytes d) tok) = some di :=
    hfind
  have hpred : startsWith (strBytes di) tok = true := by
    simpa using List.find?_some hfind'
  have hmem : di ∈ DI_ORDER := List.mem_of_find?_eq_some hfind'
  refine ⟨hpred, ?_⟩
  intro d hd hd_pre
  have h1 : strBytes d <+: tok := (startsWith_iff _ _).mp hd_pre
  have h2 : strBytes di <+: tok := (startsWith_iff _ _).mp hpred
  rcases prefixTotal h1 h2 with hc | hc
  · exact hc.length_le
  · have he : di = d := diOrderNoShadow di hmem d hd ((startsWith_iff _ _).mpr hc)
    rw [he]

/-- C5 witness: the longest-match property applied at token `30P1234`. -/
theorem longest_di_match_witness :
    findDI (strBytes "30P1234") = some "30P" ∧
    (startsWith (strBytes "30P") (strBytes "30P1234") = true ∧
      ∀ d ∈ DI_ORDER, startsWith (strBytes d) (strBytes "30P1234") = true →
        (strBytes d).length ≤ (strBytes "30P").length) :=
  ⟨by decide, longest_di_match.1 (strBytes "30P1234") "30P" (by decide)⟩

/-- C6.  Last occurrence wins: for every token list and every DI, the
`by_di` binding equals the last value of that DI's occurrence sequence,
and the per-DI duplicate records are exactly the adjacent pairs of that
sequence (each displaced value with the value that displaced it).
Concretely, a body carrying `1T` twice (`LOT1` then `LOT2`) binds
`by_di["1T"]` to `LOT2` and logs the duplicate entry. -/
theorem duplicate_di_last_wins :
    (∀ (toks : List Bytes) (di : String),
        dictGet? (processTokens toks).by_di di = lastOf (diValues toks di)) ∧
    (∀ (toks : List Bytes) (di : String),
        dupProj (processTokens toks).dups di = adjacentPairs (diValues toks di)) ∧
    (parseDigikeyPayload lotBytes).by_di = [("1T", "LOT2")] ∧
    dupsOf (parseDigikeyPayload lotBytes) =
      [{ di := "1T", previous := "LOT1", kept := "LOT2" }] := by
  refine ⟨?_, ?_, by decide, by decide⟩
  · intro toks di
    unfold processTokens
    rw [foldl_by_di]
    show orElseO (lastOf (diValues toks di)) none = lastOf (diValues toks di)
    exact orElseO_none_right _
  · intro toks di
    unfold processTokens
    rw [foldl_dups]
    show [] ++ adjFrom none (diValues toks di) = adjacentPairs (diValues toks di)
    rw [List.nil_append, adjFrom_none_eq]

/-- C7.  Digits-only fallback: whenever no token matched a DI and the
body consists solely of ASCII digits with length in [6, 14], the parse
sets `fields` to exactly the singleton `internal_part_id` binding, tags
the inference `digits_only_internal_id`, and the completeness predicate
rejects the result. -/
theorem digits_only_fallback_spec (raw : Bytes)
    (hdi : (processTokens (tokenize (bodyOf raw))).by_di = [])
    (hdig : ∀ b ∈ bodyOf raw, 48 ≤ b ∧ b ≤ 57)
    (hlen1 : 6 ≤ (bodyOf raw).length) (hlen2 : (bodyOf raw).length ≤ 14) :
    (parseDigikeyPayload raw).fields =
        [("internal_part_id", FieldVal.str (decodeLatin1 (bodyOf raw)))] ∧
    (parseDigikeyPayload raw).inference = some "digits_only_internal_id" ∧
    isCompletePayload REQUIRED_ACCEPT_DIs (parseDigikeyPayload raw) = false := by
  have hchars : ∀ c ∈ (decodeLatin1 (bodyOf raw)).data,
      pyStrWs c = false ∧ pyDigitChar c = true := by
    intro c hc
    simp only [decodeLatin1, List.mem_map] at hc
    obtain ⟨b, hb, rfl⟩ := hc
    obtain ⟨hb1, hb2⟩ := hdig b hb
    have hval : (Char.ofNat b).toNat = b := char_toNat_ofNat_lt256 b (by omega)
    constructor
    · simp only [pyStrWs, hval, decide_eq_false_iff_not]
      omega
    · simp only [pyDigitChar, hval, decide_eq_true_eq]
      omega
  have hstrip : strStrip (decodeLatin1 (bodyOf raw)) = decodeLatin1 (bodyOf raw) :=
    strStrip_noop fun c hc => (hchars c hc).1
  have hlen : (decodeLatin1 (bodyOf raw)).length = (bodyOf raw).length := by
    simp [decodeLatin1, String.length]
  have hdigit : pyIsdigit (decodeLatin1 (bodyOf raw)) = true := by
    unfold pyIsdigit
    have hne : ¬(decodeLatin1 (bodyOf raw)).data.isEmpty = true := by
      rw [List.isEmpty_iff, ← List.length_eq_zero]
      have : (decodeLatin1 (bodyOf raw)).data.length = (bodyOf raw).length := by
        simp [decodeLatin1]
      omega
    simp only [Bool.and_eq_true, Bool.not_eq_true', List.all_eq_true]
    exact ⟨by simpa using hne, fun c hc => (hchars c hc).2⟩
  have happly : applyFallback [] []
      (strStrip (decodeLatin1 (bodyOf raw))) =
      ([("internal_part_id", FieldVal.str (decodeLatin1 (bodyOf raw)))],
        some "digits_only_internal_id") := by
    rw [hstrip]
    unfold applyFallback
    have hcond : (([] : List (String × String)).isEmpty &&
        pyIsdigit (decodeLatin1 (bodyOf raw)) &&
        decide (6 ≤ (decodeLatin1 (bodyOf raw)).length) &&
        decide ((decodeLatin1 (bodyOf raw)).length ≤ 14)) = true := by
      simp only [List.isEmpty_nil, hdigit, Bool.true_and, Bool.and_eq_true,
        decide_eq_true_eq, hlen]
      exact ⟨hlen1, hlen2⟩
    rw [if_pos hcond]
    rfl
  have hempty : addLegacy (normalizeFields (projectFields [])) =
      ([] : List (String × FieldVal)) := rfl
  have hfields : (parseDigikeyPayload raw).fields =
      [("internal_part_id", FieldVal.str (decodeLatin1 (bodyOf raw)))] := by
    simp only [parseDigikeyPayload]
    rw [hdi, hempty, happly]
  have hinf : (parseDigikeyPayload raw).inference = some "digits_only_internal_id" := by
    simp only [parseDigikeyPayload]
    rw [hdi, hempty, happly]
  refine ⟨hfields, hinf, ?_⟩
  have hby : (parseDigikeyPayload raw).by_di = [] := by
    simp only [parseDigikeyPayload]
    exact hdi
  unfold isCompletePayload
  rw [hby, hfields]
  rfl

/-- C7 witness: the fallback at the concrete input `12345678`. -/
theorem digits_only_fallback_spec_witness :
    ((processTokens (tokenize (bodyOf (strBytes "12345678")))).by_di = [] ∧
      (∀ b ∈ bodyOf (strBytes "12345678"), 48 ≤ b ∧ b ≤ 57) ∧
      6 ≤ (bodyOf (strBytes "12345678")).length ∧
      (bodyOf (strBytes "12345678")).length ≤ 14) ∧
    ((parseDigikeyPayload (strBytes "12345678")).fields =
        [("internal_part_id",
          FieldVal.str (decodeLatin1 (bodyOf (strBytes "12345678"))))] ∧
      (parseDigikeyPayload (strBytes "12345678")).inference =
        some "digits_only_internal_id" ∧
      isCompletePayload REQUIRED_ACCEPT_DIs
        (parseDigikeyPayload (strBytes "12345678")) = false) :=
  ⟨⟨by decide, by decide, by decide, by decide⟩,
   digits_only_fallback_spec (strBytes "12345678")
     (by decide) (by decide) (by decide) (by decide)⟩

/-- C8.  The effort schedule constants are exactly
fast = (0, 2.5 s, 3), balanced = (0, 1.8 s, 5), aggressive = (1, 1.0 s, 5);
a session starts at the mode's floor, the level never decreases as frame
iterations are appended, it never exceeds the mode's ceiling, and an
elapsed interval with no accepted decode raises it by exactly one while
below the ceiling. -/
theorem effort_schedule_spec :
    effortSchedule "fast" = (0, (5 : ℚ) / 2, 3) ∧
    effortSchedule "balanced" = (0, (9 : ℚ) / 5, 5) ∧
    effortSchedule "aggressive" = (1, (1 : ℚ), 5) ∧
    (∀ mode, runEffort mode [] = (effortSchedule mode).1) ∧
    (∀ mode evts e, runEffort mode evts ≤ runEffort mode (evts ++ [e])) ∧
    (∀ mode evts, runEffort mode evts ≤ (effortSchedule mode).2.2) ∧
    (∀ maxL lv, lv < maxL → escalateStep maxL lv false true = lv + 1) := by
  refine ⟨by unfold effortSchedule; rw [if_pos rfl],
    by unfold effortSchedule; rw [if_neg (by decide), if_neg (by decide)],
    by unfold effortSchedule; rw [if_neg (by decide), if_pos rfl],
    fun _ => rfl, ?_, ?_, ?_⟩
  · intro mode evts e
    unfold runEffort
    rw [List.foldl_append, List.foldl_cons, List.foldl_nil]
    exact escalateStep_ge _ _ _ _
  · intro mode evts
    unfold runEffort
    apply foldl_escalate_le
    unfold effortSchedule
    split_ifs <;> simp
  · intro maxL lv h
    unfold escalateStep
    simp [h]

/-- C8 witness: one escalation step of fast mode, from level 0. -/
theorem effort_schedule_spec_witness :
    0 < 3 ∧ escalateStep 3 0 false true = 0 + 1 :=
  ⟨by decide, effort_schedule_spec.2.2.2.2.2.2 3 0 (by decide)⟩

/-- C9.  For every image type, every transform implementation, every
input image, every effort level (the recursive level-5 rotation expansion
included) and every cap, `generate_candidates` yields a finite list of at
most `maxCandidates` variants. -/
theorem generate_candidates_cap :
    ∀ (α : Type) (ops : ImgOps α) (gray : α) (level maxC : Nat),
      (generateCandidates ops gray level maxC).length ≤ maxC := by
  intro α ops gray level maxC
  unfold generateCandidates
  apply goodGen_out_le
  split
  · exact foldl_good _
      (fun st p hst => foldl_good _
        (fun st2 q h2 => tryYield_good h2 _ _) _ _ hst) _ _
      (genBase_good ops gray level maxC)
  · exact genBase_good ops gray level maxC

/-- C10.  The diagnostic required set {30P, Q} is a strict subset of the
acceptance required set {30P, Q, 1P}: a payload carrying exactly 30P and
Q produces no diagnostics at all (in particular no `missing_required`),
yet the completeness predicate rejects it. -/
theorem required_sets_strict_subset :
    REQUIRED_DIs = ["30P", "Q"] ∧
    REQUIRED_ACCEPT_DIs = ["30P", "Q", "1P"] ∧
    (∀ di ∈ REQUIRED_DIs, di ∈ REQUIRED_ACCEPT_DIs) ∧
    "1P" ∈ REQUIRED_ACCEPT_DIs ∧ "1P" ∉ REQUIRED_DIs ∧
    (parseDigikeyPayload c10bytes).by_di = [("30P", "123"), ("Q", "5")] ∧
    (parseDigikeyPayload c10bytes).diagnostics = none ∧
    isCompletePayload REQUIRED_ACCEPT_DIs (parseDigikeyPayload c10bytes) = false :=
  ⟨rfl, rfl, by decide, by decide, by decide, by decide, by decide, by decide⟩

end CodeScanner
